/-
Verification of the document core of lapce (lapce-data/src/document.rs).

The document core is shallowly embedded: the text buffer is a `List Char`
(each `Char` standing for one grapheme cluster), machine integers are `Nat`,
and the spots where the Rust code can panic (usize underflow, `unwrap` of a
`None`) are modelled by returning `none`.  External capabilities that the
spec treats as consumed collaborators (text edit engine, span shifter, lens
updater, rendering hit-testing, line-style computation) are fields of an
`ExtOps` record, so theorems quantify over every conforming implementation.
Buffer and word-scanner primitives live in lapce-core, which is part of the
repository but not among the provided sources; they are modelled from the
spec and marked as such.
-/
import Mathlib

set_option autoImplicit false

namespace LapceDoc

/-- Editor mode (lapce-core `Mode`), per the spec's modal cursor states. -/
inductive Mode where
  | normal
  | insert
  | visual
  deriving DecidableEq, Repr

/-- Remembered horizontal hint (lapce-core `ColPosition`).  The `f64`
x-coordinate of `ColPosition::Col` is modelled as a `Nat` handed to the
hit-testing oracle. -/
inductive ColPosition where
  | col (x : Nat)
  | lineEnd
  | lineStart
  | firstNonBlank
  deriving DecidableEq, Repr

/-- 1-based line addressing with First/Last sentinels (lapce-core
`LinePosition`). -/
inductive LinePosition where
  | line (n : Nat)
  | first
  | last
  deriving DecidableEq, Repr

/-- Abstract cursor movement (lapce-core `Movement`), restricted to the
variants handled by `Document::move_offset`. -/
inductive Movement where
  | left
  | right
  | up
  | down
  | documentStart
  | documentEnd
  | firstNonBlank
  | startOfLine
  | endOfLine
  | line (pos : LinePosition)
  | offset (n : Nat)
  | wordEndForward
  | wordForward
  | wordBackward
  | nextUnmatched (c : Char)
  | previousUnmatched (c : Char)
  | matchPairs
  deriving DecidableEq, Repr

/-- Modelled from the spec: `Movement::is_vertical` of lapce-core — the
vertical movements are the line-changing ones. -/
def Movement.is_vertical : Movement → Bool
  | .up | .down | .line _ | .documentStart | .documentEnd => true
  | _ => false

/-- Pending motion-mode operator (lapce-core `MotionMode`). -/
inductive MotionMode where
  | delete
  | yank
  | indent
  | outdent
  deriving DecidableEq, Repr

/-- A style span: half-open offset range plus a visual-attribute identifier
(lapce-rpc `Style` content is irrelevant to the claims). -/
structure StyleSpan where
  start : Nat
  stop : Nat
  styleId : Nat
  deriving DecidableEq, Repr

/-- A per-line style entry (lapce-rpc `LineStyle`). -/
structure LineStyle where
  start : Nat
  stop : Nat
  styleId : Nat
  deriving DecidableEq, Repr

/-- A buffer delta (xi-rope `RopeDelta`, modelled as a single replace edit:
at `pos`, remove `del` graphemes, insert `ins`). -/
structure Delta where
  pos : Nat
  del : Nat
  ins : List Char
  deriving DecidableEq, Repr

/-- Invalidated line range attached to a delta (lapce-core `InvalLines`).
`apply_deltas` ignores this component. -/
structure InvalLines where
  startLine : Nat
  invalCount : Nat
  newCount : Nat
  deriving DecidableEq, Repr

/-- Per-line folding/height hints (the syntax "lens"); updated through the
external capability `ExtOps.lensApply`. -/
def Lens := List Nat
deriving instance DecidableEq, Repr for Lens

/-- The syntax result capability: pair/tag matcher functions, optional style
spans, and the lens.  The matcher functions are oracles standing for the
tree-sitter-backed `Syntax::find_tag` / `Syntax::find_matching_pair`. -/
structure SyntaxCap where
  findTag : Nat → Bool → Char → Option Nat
  findMatchingPair : Nat → Option Nat
  styles : Option (List StyleSpan)
  lens : Lens

/-- Content identity of a document (lapce-data `BufferContent`): backed by a
path, or a scratch/local buffer. -/
inductive BufferContent where
  | file (path : List Char)
  | scratch
  deriving DecidableEq, Repr

/-- Modelled from the spec: the text buffer of lapce-core — text plus the
monotonic revision counter and the atomically-readable mirror of it. -/
structure Buffer where
  text : List Char
  rev : Nat
  atomicRev : Nat
  deriving DecidableEq, Repr

/-- One selection region (lapce-core `SelRegion`). -/
structure SelRegion where
  start : Nat
  stop : Nat
  horiz : Option ColPosition
  deriving DecidableEq, Repr

/-- A multi-region selection (lapce-core `Selection`); region order is
insertion order. -/
structure Selection where
  regions : List SelRegion
  deriving DecidableEq, Repr

/-- Cursor state tag (lapce-core `CursorMode`). -/
inductive CursorMode where
  | normal (off : Nat)
  | visual (start : Nat) (stop : Nat) (vmode : Nat)
  | insert (sel : Selection)
  deriving DecidableEq, Repr

/-- The cursor (lapce-core `Cursor`): mode, remembered horizontal hint, and
the optional pending motion-mode operator. -/
structure Cursor where
  mode : CursorMode
  horiz : Option ColPosition
  motion_mode : Option MotionMode
  deriving DecidableEq, Repr

section TextPrimitives

/-- Modelled from the spec: offset of the start of `line`, clamping past the
last line to the buffer length (lapce-core `Buffer::offset_of_line`). -/
def offset_of_line : List Char → Nat → Nat
  | _, 0 => 0
  | [], _ + 1 => 0
  | c :: rest, n + 1 =>
    if c = '\n' then 1 + offset_of_line rest n else 1 + offset_of_line rest (n + 1)

/-- Modelled from the spec: the line containing `off` — the number of
newlines before it (lapce-core `Buffer::line_of_offset`, clamping). -/
def line_of_offset (t : List Char) (off : Nat) : Nat :=
  (t.take off).count '\n'

/-- Modelled from the spec: index of the last line. -/
def last_line (t : List Char) : Nat :=
  t.count '\n'

/-- Length of the content of `line`, excluding its trailing newline. -/
def line_content_len (t : List Char) (line : Nat) : Nat :=
  ((t.drop (offset_of_line t line)).takeWhile (fun c => c ≠ '\n')).length

/-- Offset one past the last content character of `line` (its newline
position, or the buffer length on the final line). -/
def line_content_end (t : List Char) (line : Nat) : Nat :=
  offset_of_line t line + line_content_len t line

/-- Modelled from the spec: end offset of `line`; with `caret = false` the
cursor may not rest past the last character, so step back one grapheme
(lapce-core `Buffer::line_end_offset`). -/
def line_end_offset (t : List Char) (line : Nat) (caret : Bool) : Nat :=
  let s := offset_of_line t line
  let e := line_content_end t line
  if caret then e else if e = s then e else e - 1

/-- Modelled from the spec: end offset of the line containing `off`
(lapce-core `Buffer::offset_line_end`). -/
def offset_line_end (t : List Char) (off : Nat) (caret : Bool) : Nat :=
  line_end_offset t (line_of_offset t off) caret

/-- Modelled from the spec: end column of `line` (lapce-core
`Buffer::line_end_col`). -/
def line_end_col (t : List Char) (line : Nat) (caret : Bool) : Nat :=
  line_end_offset t line caret - offset_of_line t line

/-- Modelled from the spec: offset of `(line, col)`, clamping the column to
the line content (lapce-core `Buffer::offset_of_line_col`). -/
def offset_of_line_col (t : List Char) (line col : Nat) : Nat :=
  let l := min line (last_line t)
  min (offset_of_line t l + col) (line_content_end t l)

/-- Modelled from the spec: step back `count` graphemes, not moving below
`limit` (lapce-core `Buffer::prev_grapheme_offset`). -/
def prev_grapheme_offset (t : List Char) (off count limit : Nat) : Nat :=
  let o := min off t.length
  if o < limit then o else max limit (o - count)

/-- Modelled from the spec: step forward `count` graphemes, not moving past
`limit` (lapce-core `Buffer::next_grapheme_offset`). -/
def next_grapheme_offset (t : List Char) (off count limit : Nat) : Nat :=
  let o := min off t.length
  let lim := min limit t.length
  if lim < o then o else min (o + count) lim

/-- Modelled from the spec: the previous grapheme boundary strictly before
`off` (xi-rope `Rope::prev_grapheme_offset`); `none` when no boundary exists
or `off` lies beyond the rope, where the Rust side panics. -/
def rope_prev_grapheme (t : List Char) (off : Nat) : Option Nat :=
  if off = 0 ∨ t.length < off then none else some (off - 1)

/-- Is this character line blank space. -/
def is_blank (c : Char) : Bool :=
  c = ' ' ∨ c = '\t'

/-- Modelled from the spec: offset of the first non-blank character of
`line` (lapce-core `Buffer::first_non_blank_character_on_line`). -/
def first_non_blank_character_on_line (t : List Char) (line : Nat) : Nat :=
  let l := min line (last_line t)
  let s := offset_of_line t l
  s + ((t.drop s).takeWhile is_blank).length

theorem offset_of_line_le (t : List Char) (n : Nat) :
    offset_of_line t n ≤ t.length := by
  induction t generalizing n with
  | nil => cases n <;> simp [offset_of_line]
  | cons c rest ih =>
    cases n with
    | zero => simp [offset_of_line]
    | succ m =>
      simp only [offset_of_line, List.length_cons]
      split
      · have := ih m; omega
      · have := ih (m + 1); omega

theorem takeWhile_length_le (p : Char → Bool) (l : List Char) :
    (l.takeWhile p).length ≤ l.length := by
  induction l with
  | nil => simp
  | cons c rest ih =>
    simp only [List.takeWhile]
    split
    · simpa using Nat.succ_le_succ ih
    · simp

theorem line_content_end_le (t : List Char) (line : Nat) :
    line_content_end t line ≤ t.length := by
  have h1 := offset_of_line_le t line
  have h2 := takeWhile_length_le (fun c => c ≠ '\n') (t.drop (offset_of_line t line))
  have h3 : (t.drop (offset_of_line t line)).length = t.length - offset_of_line t line := by
    simp
  unfold line_content_end line_content_len
  omega

theorem line_end_offset_le (t : List Char) (line : Nat) (caret : Bool) :
    line_end_offset t line caret ≤ t.length := by
  have h := line_content_end_le t line
  unfold line_end_offset
  dsimp only
  split
  · exact h
  · split
    · exact h
    · omega

theorem offset_line_end_le (t : List Char) (off : Nat) (caret : Bool) :
    offset_line_end t off caret ≤ t.length :=
  line_end_offset_le t _ caret

theorem offset_of_line_col_le (t : List Char) (line col : Nat) :
    offset_of_line_col t line col ≤ t.length := by
  have h := line_content_end_le t (min line (last_line t))
  unfold offset_of_line_col
  dsimp only
  omega

theorem prev_grapheme_offset_le (t : List Char) (off count limit : Nat)
    (hlim : limit ≤ t.length) :
    prev_grapheme_offset t off count limit ≤ t.length := by
  unfold prev_grapheme_offset
  dsimp only
  split <;> omega

theorem next_grapheme_offset_le (t : List Char) (off count limit : Nat) :
    next_grapheme_offset t off count limit ≤ t.length := by
  unfold next_grapheme_offset
  dsimp only
  split <;> omega

theorem first_non_blank_le (t : List Char) (line : Nat) :
    first_non_blank_character_on_line t line ≤ t.length := by
  have h1 := offset_of_line_le t (min line (last_line t))
  have h2 := takeWhile_length_le is_blank (t.drop (offset_of_line t (min line (last_line t))))
  have h3 : (t.drop (offset_of_line t (min line (last_line t)))).length
      = t.length - offset_of_line t (min line (last_line t)) := by simp
  unfold first_non_blank_character_on_line
  dsimp only
  omega

end TextPrimitives

section WordScanner

/-- Is this character part of a word for the modelled scanner. -/
def is_word_char (c : Char) : Bool :=
  ¬ (c = ' ' ∨ c = '\t' ∨ c = '\n')

/-- Modelled from the spec: the Unicode word scanner's end-of-word boundary
(lapce-core `WordCursor::end_boundary`) — the first position `e` after `off`
such that the character before `e` belongs to a word and the character at
`e` (if any) does not. -/
def end_boundary (t : List Char) (off : Nat) : Option Nat :=
  (List.range (t.length + 1)).find? fun e =>
    decide (off < e) &&
      (match t.get? (e - 1) with
        | some c => is_word_char c
        | none => false) &&
      (match t.get? e with
        | some c => !is_word_char c
        | none => true)

/-- Modelled from the spec: the scanner's next word-start boundary
(lapce-core `WordCursor::next_boundary`). -/
def next_boundary (t : List Char) (off : Nat) : Option Nat :=
  (List.range (t.length + 1)).find? fun e =>
    decide (off < e) &&
      (match t.get? e with
        | some c => is_word_char c
        | none => false) &&
      (match t.get? (e - 1) with
        | some c => !is_word_char c
        | none => true)

/-- Modelled from the spec: the scanner's previous word-start boundary
(lapce-core `WordCursor::prev_boundary`). -/
def prev_boundary (t : List Char) (off : Nat) : Option Nat :=
  ((List.range (min off (t.length + 1))).reverse).find? fun e =>
    (match t.get? e with
      | some c => is_word_char c
      | none => false) &&
    (match t.get? (e - 1) with
      | some c => !is_word_char c
      | none => decide (e = 0))

/-- Modelled from the spec: the counterpart of a bracket character
(lapce-core `matching_char`). -/
def matching_char : Char → Option Char
  | '(' => some ')'
  | ')' => some '('
  | '{' => some '}'
  | '}' => some '{'
  | '[' => some ']'
  | ']' => some '['
  | _ => none

/-- Does this bracket open a pair (lapce-core `matching_pair_direction`):
`true` for an opening bracket, `false` for a closing one. -/
def matching_pair_direction : Char → Option Bool
  | '(' | '{' | '[' => some true
  | ')' | '}' | ']' => some false
  | _ => none

/-- Forward scan for the unmatched occurrence of `c`, the scan cursor
standing at index `i`; `other` is the counterpart that opens a nested pair.
Returns the cursor position just after the found character. -/
def scan_next_unmatched (c other : Char) : List Char → Nat → Nat → Option Nat
  | [], _, _ => none
  | ch :: rest, i, depth =>
    if ch = c then
      if depth = 0 then some (i + 1)
      else scan_next_unmatched c other rest (i + 1) (depth - 1)
    else if ch = other then scan_next_unmatched c other rest (i + 1) (depth + 1)
    else scan_next_unmatched c other rest (i + 1) depth

/-- Backward scan (over an already reversed prefix) for the unmatched
occurrence of `c`; `other` is the counterpart that closes a nested pair.
The scan cursor stands at index `i`, descending.  Returns the position of
the found character itself. -/
def scan_prev_unmatched (c other : Char) : List Char → Nat → Nat → Option Nat
  | [], _, _ => none
  | ch :: rest, i, depth =>
    if ch = c then
      if depth = 0 then some i
      else scan_prev_unmatched c other rest (i - 1) (depth - 1)
    else if ch = other then scan_prev_unmatched c other rest (i - 1) (depth + 1)
    else scan_prev_unmatched c other rest (i - 1) depth

/-- Modelled from the spec: the textual heuristic scanner's forward search
for the next unmatched `c` (lapce-core `WordCursor::next_unmatched`);
returns the cursor position one past the found bracket. -/
def next_unmatched (t : List Char) (off : Nat) (c : Char) : Option Nat :=
  (matching_char c).bind fun other =>
    scan_next_unmatched c other (t.drop off) (min off t.length) 0

/-- Modelled from the spec: the textual heuristic scanner's backward search
for the previous unmatched `c` (lapce-core `WordCursor::previous_unmatched`);
returns the position of the found bracket. -/
def previous_unmatched (t : List Char) (off : Nat) (c : Char) : Option Nat :=
  (matching_char c).bind fun other =>
    scan_prev_unmatched c other ((t.take off).reverse) (min off t.length - 1) 0

/-- Modelled from the spec: the textual heuristic bracket matcher
(lapce-core `WordCursor::match_pairs`): look at the character under the
cursor and scan in the direction of its counterpart. -/
def match_pairs (t : List Char) (off : Nat) : Option Nat :=
  match t.get? off with
  | none => none
  | some ch =>
    match matching_char ch with
    | none => none
    | some other =>
      match matching_pair_direction other with
      | none => none
      | some true => previous_unmatched t off other
      | some false =>
        (next_unmatched t (off + 1) other).map fun n => n - 1

theorem find?_range_le {n : Nat} {p : Nat → Bool} {e : Nat}
    (h : (List.range n).find? p = some e) : e + 1 ≤ n := by
  have hm := List.mem_of_find?_eq_some h
  have := List.mem_range.mp hm
  omega

theorem end_boundary_le (t : List Char) (off : Nat) {e : Nat}
    (h : end_boundary t off = some e) : e ≤ t.length := by
  have := find?_range_le h
  omega

theorem next_boundary_le (t : List Char) (off : Nat) {e : Nat}
    (h : next_boundary t off = some e) : e ≤ t.length := by
  have := find?_range_le h
  omega

theorem prev_boundary_le (t : List Char) (off : Nat) {e : Nat}
    (h : prev_boundary t off = some e) : e ≤ t.length := by
  have hm := List.mem_of_find?_eq_some h
  rw [List.mem_reverse] at hm
  have := List.mem_range.mp hm
  omega

theorem scan_next_unmatched_le (c other : Char) (l : List Char) (i depth : Nat)
    {r : Nat} (h : scan_next_unmatched c other l i depth = some r) :
    r ≤ i + l.length := by
  induction l generalizing i depth with
  | nil => simp [scan_next_unmatched] at h
  | cons ch rest ih =>
    simp only [scan_next_unmatched] at h
    split at h
    · split at h
      · simp only [Option.some.injEq] at h
        simp [← h]
      · have := ih _ _ h; simp; omega
    · split at h
      · have := ih _ _ h; simp; omega
      · have := ih _ _ h; simp; omega

theorem scan_prev_unmatched_le (c other : Char) (l : List Char) (i depth : Nat)
    {r : Nat} (h : scan_prev_unmatched c other l i depth = some r) :
    r ≤ i := by
  induction l generalizing i depth with
  | nil => simp [scan_prev_unmatched] at h
  | cons ch rest ih =>
    simp only [scan_prev_unmatched] at h
    split at h
    · split at h
      · simp only [Option.some.injEq] at h
        omega
      · have := ih _ _ h; omega
    · split at h
      · have := ih _ _ h; omega
      · have := ih _ _ h; omega

theorem next_unmatched_le (t : List Char) (off : Nat) (c : Char) {r : Nat}
    (h : next_unmatched t off c = some r) : r ≤ t.length := by
  unfold next_unmatched at h
  cases hm : matching_char c with
  | none => rw [hm] at h; simp at h
  | some other =>
    rw [hm] at h
    simp only [Option.bind_some, Option.some_bind] at h
    have := scan_next_unmatched_le _ _ _ _ _ h
    have hlen : (t.drop off).length = t.length - off := by simp
    omega

theorem previous_unmatched_le (t : List Char) (off : Nat) (c : Char) {r : Nat}
    (h : previous_unmatched t off c = some r) : r ≤ t.length := by
  unfold previous_unmatched at h
  cases hm : matching_char c with
  | none => rw [hm] at h; simp at h
  | some other =>
    rw [hm] at h
    simp only [Option.bind_some, Option.some_bind] at h
    have := scan_prev_unmatched_le _ _ _ _ _ h
    omega

theorem match_pairs_le (t : List Char) (off : Nat) {r : Nat}
    (h : match_pairs t off = some r) : r ≤ t.length := by
  unfold match_pairs at h
  split at h
  · exact absurd h (by simp)
  · split at h
    · exact absurd h (by simp)
    · split at h
      · exact absurd h (by simp)
      · exact previous_unmatched_le _ _ _ h
      · cases hn : next_unmatched t (off + 1) _ with
        | none => rw [hn] at h; simp at h
        | some n =>
          rw [hn] at h
          simp only [Option.map, Option.some.injEq] at h
          have := next_unmatched_le _ _ _ hn
          omega

end WordScanner

section DocumentModel

/-- The external capabilities consumed by the document core, as the spec
lists them: the xi-rope span shifter, the lens updater, line-style
computation, rendering hit-testing, and the text edit engine's motion-mode
executor.  Theorems quantify over every implementation. -/
structure ExtOps where
  applyShapeSpans : Delta → List StyleSpan → List StyleSpan
  lensApply : Delta → Lens → Lens
  lineStylesOf : List Char → Nat → List StyleSpan → List LineStyle
  hitTestPoint : Nat → Nat → Nat
  pointOfOffsetX : Nat → Nat
  execMotion : Cursor → Buffer → MotionMode → Nat → Nat → Bool →
    Cursor × Buffer × List (Delta × InvalLines)

/-- The document model (lapce-data `Document`): buffer, content identity,
optional syntax result, optional semantic overlay, per-line style cache and
per-line layout cache (layout values are opaque identifiers). -/
structure Document where
  buffer : Buffer
  content : BufferContent
  syn : Option SyntaxCap
  semantic_styles : Option (List StyleSpan)
  line_styles : List (Nat × List LineStyle)
  text_layouts : List (Nat × Nat)

/-- Observable side effects of the document operations, in program order. -/
inductive DocOp where
  | shiftSemantic
  | shiftSyntaxStyles
  | shiftLens
  | clearStyleCache
  | clearLayoutCache
  | triggerReparse
  | execMotionMode (mm : MotionMode) (start : Nat) (stop : Nat) (vertical : Bool)
  deriving DecidableEq, Repr

/-- `Document::update_styles`: shift the semantic overlay through the delta
if present, else the syntax style spans; shift the lens whenever a syntax
result is present; finally clear the per-line style cache. -/
def update_styles (ops : ExtOps) (doc : Document) (d : Delta) :
    Document × List DocOp :=
  let (doc1, tr1) :=
    match doc.semantic_styles with
    | some st =>
      ({ doc with semantic_styles := some (ops.applyShapeSpans d st) },
        [DocOp.shiftSemantic])
    | none =>
      match doc.syn with
      | some s =>
        match s.styles with
        | some st =>
          ({ doc with syn := some { s with styles := some (ops.applyShapeSpans d st) } },
            [DocOp.shiftSyntaxStyles])
        | none => (doc, [])
      | none => (doc, [])
  let (doc2, tr2) :=
    match doc1.syn with
    | some s =>
      ({ doc1 with syn := some { s with lens := ops.lensApply d s.lens } },
        [DocOp.shiftLens])
    | none => (doc1, [])
  ({ doc2 with line_styles := [] }, tr1 ++ tr2 ++ [DocOp.clearStyleCache])

/-- `Document::clear_text_layout_cache`. -/
def clear_text_layout_cache (doc : Document) : Document :=
  { doc with text_layouts := [] }

/-- `Document::on_update`: clear the layout cache and re-trigger the reparse
scheduler (the conditional worker dispatch itself is modelled by
`trigger_syntax_change` / `syntax_worker`). -/
def on_update (doc : Document) : Document × List DocOp :=
  (clear_text_layout_cache doc, [DocOp.clearLayoutCache, DocOp.triggerReparse])

/-- `Document::apply_deltas`: for each (delta, invalidated-range) pair, run
`update_styles` then `on_update`; the invalidated-range component is
ignored. -/
def apply_deltas (ops : ExtOps) (doc : Document) :
    List (Delta × InvalLines) → Document × List DocOp
  | [] => (doc, [])
  | (d, _) :: rest =>
    let (doc1, t1) := update_styles ops doc d
    let (doc2, t2) := on_update doc1
    let (doc3, t3) := apply_deltas ops doc2 rest
    (doc3, t1 ++ t2 ++ t3)

/-- `Document::set_syntax` (renamed: `syntax` is reserved in Lean): install
a syntax result; clear the style cache only when no semantic overlay is
active (the style-cache clear also clears the layout cache). -/
def set_syntax_cap (doc : Document) (s : Option SyntaxCap) : Document :=
  let doc1 := { doc with syn := s }
  if doc1.semantic_styles.isNone then
    { doc1 with line_styles := [], text_layouts := [] }
  else doc1

/-- `Document::set_semantic_styles`: install a semantic overlay and clear
the style cache unconditionally. -/
def set_semantic_styles (doc : Document) (st : Option (List StyleSpan)) :
    Document :=
  { doc with semantic_styles := st, line_styles := [], text_layouts := [] }

/-- `Document::line_style`: return the cached per-line styles, computing and
inserting them on a miss; the span source is the semantic overlay when
present, else the syntax style spans, else nothing (empty styles). -/
def line_style (ops : ExtOps) (doc : Document) (line : Nat) :
    List LineStyle × Document :=
  match List.lookup line doc.line_styles with
  | some v => (v, doc)
  | none =>
    let sty : Option (List StyleSpan) :=
      match doc.semantic_styles with
      | some st => some st
      | none => doc.syn.bind fun s => s.styles
    let computed : List LineStyle :=
      match sty with
      | some st => ops.lineStylesOf doc.buffer.text line st
      | none => []
    (computed, { doc with line_styles := (line, computed) :: doc.line_styles })

/-- Modelled from the spec: `Cursor::offset` of lapce-core — the single
representative offset of the cursor. -/
def cursor_offset (c : Cursor) : Nat :=
  match c.mode with
  | .normal o => o
  | .visual _ e _ => e
  | .insert sel => ((sel.regions.getLast?).map fun r => r.stop).getD 0

/-- `Document::do_motion_mode`: with the same operator already pending,
execute it over the zero-width span at the cursor offset and clear it; with
a different operator pending, just clear it; with none pending, install the
operator. -/
def do_motion_mode (ops : ExtOps) (doc : Document) (cur : Cursor)
    (mm : MotionMode) : Document × Cursor × List DocOp :=
  match cur.motion_mode with
  | some m =>
    if m = mm then
      let off := cursor_offset cur
      let (cur1, buf1, ds) := ops.execMotion cur doc.buffer mm off off true
      let (doc1, tr) := apply_deltas ops { doc with buffer := buf1 } ds
      (doc1, { cur1 with motion_mode := none },
        DocOp.execMotionMode mm off off true :: tr)
    else
      (doc, { cur with motion_mode := none }, [])
  | none => (doc, { cur with motion_mode := some mm }, [])

end DocumentModel

section Scheduler

/-- The data captured at dispatch time by `Document::trigger_syntax_change`:
path, revision `R`, a snapshot of the text, and the optional delta. -/
structure WorkerTask where
  path : List Char
  rev : Nat
  text : List Char
  delta : Option Delta

/-- The message a worker posts on successful delivery
(`LapceUICommand::UpdateSyntax`). -/
structure UpdateSyntaxMsg where
  path : List Char
  rev : Nat
  newSyn : SyntaxCap

/-- `Document::trigger_syntax_change`: dispatch a background worker only
when the content is backed by a path and a syntax capability exists,
capturing the current revision and a text snapshot. -/
def trigger_syntax_change (doc : Document) (delta : Option Delta) :
    Option WorkerTask :=
  match doc.content with
  | .file p =>
    match doc.syn with
    | some _ => some ⟨p, doc.buffer.rev, doc.buffer.text, delta⟩
    | none => none
  | .scratch => none

/-- The body of the background worker spawned by `trigger_syntax_change`:
`read1` and `read2` are the values observed on the atomic revision mirror
before and after the parse; `parse` is the syntax capability's parser. -/
def syntax_worker (parse : Nat → List Char → Option Delta → SyntaxCap)
    (task : WorkerTask) (read1 read2 : Nat) : Option UpdateSyntaxMsg :=
  if read1 ≠ task.rev then none
  else
    let newSyn := parse task.rev task.text task.delta
    if read2 ≠ task.rev then none
    else some ⟨task.path, task.rev, newSyn⟩

/-- Modelled from the spec: the owning component's handler for the
delivered message installs the parsed syntax result; with no message the
document is untouched. -/
def adopt_update (doc : Document) (msg : Option UpdateSyntaxMsg) : Document :=
  match msg with
  | none => doc
  | some m => set_syntax_cap doc (some m.newSyn)

end Scheduler

section MotionResolver

/-- `Document::line_horiz_col`: map a horizontal hint to a column on `line`.
An explicit coordinate goes through the rendering hit-test and is clamped to
the line's end column; the first-non-blank hint reproduces the source's use
of the buffer-offset-valued helper as a column. -/
def line_horiz_col (ops : ExtOps) (t : List Char) (line : Nat)
    (horiz : ColPosition) (caret : Bool) : Nat :=
  match horiz with
  | .col x => min (ops.hitTestPoint line x) (line_end_col t line caret)
  | .lineEnd => line_end_col t line caret
  | .lineStart => 0
  | .firstNonBlank => first_non_blank_character_on_line t line

/-- `Document::move_offset`: resolve one movement.  `none` models a panic of
the Rust code (usize underflow in `Movement::Line`, `unwrap` of a missing
rope boundary in `Movement::Offset`); the dead `offset_to_line_col` bindings
of the source (results discarded) are omitted. -/
def move_offset (ops : ExtOps) (t : List Char) (syn : Option SyntaxCap)
    (off : Nat) (horiz : Option ColPosition) (count : Nat) (mv : Movement)
    (mode : Mode) : Option (Nat × Option ColPosition) :=
  match mv with
  | .left =>
    let line := line_of_offset t off
    let lineStartOffset := offset_of_line t line
    let minOffset := if mode = .insert then 0 else lineStartOffset
    some (prev_grapheme_offset t off count minOffset, none)
  | .right =>
    let lineEnd := offset_line_end t off (mode ≠ .normal)
    let maxOffset := if mode = .insert then t.length else lineEnd
    some (next_grapheme_offset t off count maxOffset, none)
  | .up =>
    let line := line_of_offset t off
    let line1 := if line = 0 then 0 else line - count
    let hz := horiz.getD (ColPosition.col (ops.pointOfOffsetX off))
    let col := line_horiz_col ops t line1 hz (mode ≠ .normal)
    some (offset_of_line_col t line1 col, some hz)
  | .down =>
    let lastL := last_line t
    let line := line_of_offset t off
    let line1 := min (line + count) lastL
    let hz := horiz.getD (ColPosition.col (ops.pointOfOffsetX off))
    let col := line_horiz_col ops t line1 hz (mode ≠ .normal)
    some (offset_of_line_col t line1 col, some hz)
  | .documentStart => some (0, some ColPosition.lineStart)
  | .documentEnd =>
    some (offset_line_end t t.length (mode ≠ .normal), some ColPosition.lineEnd)
  | .firstNonBlank =>
    let line := line_of_offset t off
    some (first_non_blank_character_on_line t line, some ColPosition.firstNonBlank)
  | .startOfLine =>
    let line := line_of_offset t off
    some (offset_of_line t line, some ColPosition.lineStart)
  | .endOfLine =>
    some (offset_line_end t off (mode ≠ .normal), some ColPosition.lineEnd)
  | .line pos =>
    (match pos with
      | .line n => if n = 0 then none else some (min (n - 1) (last_line t))
      | .first => some 0
      | .last => some (last_line t)).map fun line1 =>
      let hz := horiz.getD (ColPosition.col (ops.pointOfOffsetX off))
      let col := line_horiz_col ops t line1 hz (mode ≠ .normal)
      (offset_of_line_col t line1 col, some hz)
  | .offset n =>
    (rope_prev_grapheme t (n + 1)).map fun o => (o, none)
  | .wordEndForward =>
    let e := (end_boundary t off).getD off
    let e1 := if mode ≠ .insert then prev_grapheme_offset t e 1 0 else e
    some (e1, none)
  | .wordForward => some ((next_boundary t off).getD off, none)
  | .wordBackward => some ((prev_boundary t off).getD off, none)
  | .nextUnmatched c =>
    match syn with
    | some s => some ((s.findTag off false c).getD off, none)
    | none =>
      some (((next_unmatched t off c).map fun n => n - 1).getD off, none)
  | .previousUnmatched c =>
    match syn with
    | some s => some ((s.findTag off true c).getD off, none)
    | none => some ((previous_unmatched t off c).getD off, none)
  | .matchPairs =>
    match syn with
    | some s => some ((s.findMatchingPair off).getD off, none)
    | none => some ((match_pairs t off).getD off, none)

/-- `Document::move_region`: move a selection region's `end`; keep `start`
when `modify` is requested, else collapse. -/
def move_region (ops : ExtOps) (doc : Document) (region : SelRegion)
    (count : Nat) (modify : Bool) (mv : Movement) (mode : Mode) :
    Option SelRegion :=
  (move_offset ops doc.buffer.text doc.syn region.stop region.horiz count mv
      mode).map fun (stop1, hz) =>
    ⟨if modify then region.start else stop1, stop1, hz⟩

/-- `Document::move_selection`: move every region independently. -/
def move_selection (ops : ExtOps) (doc : Document) (sel : Selection)
    (count : Nat) (modify : Bool) (mv : Movement) (mode : Mode) :
    Option Selection :=
  (sel.regions.mapM fun r => move_region ops doc r count modify mv mode).map
    Selection.mk

/-- `Document::move_cursor`: per-mode application of a movement.  In Normal
mode with a pending motion-mode operator the raw destination is computed,
a one-grapheme lookahead `Right` in Insert mode widens inclusive movements,
the span is handed to the edit engine's motion-mode executor, and the
pending operator is cleared. -/
def move_cursor (ops : ExtOps) (doc : Document) (cur : Cursor) (mv : Movement)
    (count : Nat) (modify : Bool) : Option (Document × Cursor × List DocOp) :=
  match cur.mode with
  | .normal off =>
    (move_offset ops doc.buffer.text doc.syn off cur.horiz count mv
        .normal).bind fun (newOffset, hz) =>
      match cur.motion_mode with
      | some mm =>
        (move_offset ops doc.buffer.text doc.syn newOffset none 1 .right
            .insert).bind fun (movedNewOffset, _) =>
          let se : Nat × Nat :=
            match mv with
            | .endOfLine | .wordEndForward => (off, movedNewOffset)
            | .matchPairs =>
              if newOffset > off then (off, movedNewOffset)
              else (movedNewOffset, newOffset)
            | _ => (off, newOffset)
          let (cur1, buf1, ds) :=
            ops.execMotion cur doc.buffer mm se.1 se.2 mv.is_vertical
          let (doc1, tr) := apply_deltas ops { doc with buffer := buf1 } ds
          some (doc1, { cur1 with motion_mode := none },
            DocOp.execMotionMode mm se.1 se.2 mv.is_vertical :: tr)
      | none =>
        some (doc, { cur with mode := .normal newOffset, horiz := hz }, [])
  | .visual start stop vmode =>
    (move_offset ops doc.buffer.text doc.syn stop cur.horiz
        count mv .visual).map fun (newOffset, hz) =>
      (doc, { cur with mode := .visual start newOffset vmode, horiz := hz }, [])
  | .insert sel =>
    (move_selection ops doc sel count modify mv .insert).map fun sel1 =>
      (doc, { cur with mode := .insert sel1 }, [])

end MotionResolver

section Fixtures

/-- Trivial instantiation of the external capabilities, for concrete
evaluations. -/
def trivOps : ExtOps :=
  ⟨fun _ s => s, fun _ l => l, fun _ _ _ => [], fun _ _ => 0, fun _ => 0,
    fun c b _ _ _ _ => (c, b, [])⟩

/-- A parser capability producing an inert syntax result. -/
def parse0 : Nat → List Char → Option Delta → SyntaxCap :=
  fun _ _ _ => ⟨fun _ _ _ => none, fun _ => none, none, []⟩

/-- A concrete syntax result with style spans and a one-line lens. -/
def syn0 : SyntaxCap :=
  ⟨fun _ _ _ => none, fun _ => none, some [], [3]⟩

/-- A dispatched worker task at revision 3 over an empty snapshot. -/
def task0 : WorkerTask := ⟨[], 3, [], none⟩

/-- A bare two-character document with no style sources. -/
def docAB : Document := ⟨⟨['a', 'b'], 1, 1⟩, .scratch, none, none, [], []⟩

/-- A document carrying both a semantic overlay and a syntax result, with
nonempty caches. -/
def docBoth : Document :=
  ⟨⟨['a'], 1, 1⟩, .file ['f'], some syn0, some [⟨0, 1, 2⟩], [(0, [])], [(0, 0)]⟩

/-- A one-grapheme insertion at offset 0. -/
def d0 : Delta := ⟨0, 0, ['x']⟩

/-- An inert invalidated-lines record. -/
def iv0 : InvalLines := ⟨0, 0, 0⟩

/-- Capabilities whose lens updater visibly changes the lens. -/
def lensOps : ExtOps := { trivOps with lensApply := fun _ l => 0 :: l }

/-- A Normal-mode cursor at offset 1 with a pending delete operator. -/
def curPend : Cursor := ⟨.normal 1, none, some .delete⟩

/-- A Normal-mode cursor at offset 0 with a pending yank operator. -/
def curYank : Cursor := ⟨.normal 0, none, some .yank⟩

end Fixtures

section Claims

/-- Claim C1: a background reparse worker dispatched at revision R delivers
its result only if the atomic revision mirror still equals R when re-read
after the parse; if the mirror differs from R at the advisory early check or
at the delivery-time check, the worker produces no output and the document's
visible syntax state is not altered by that worker. -/
theorem c1_worker_revision_guard
    (parse : Nat → List Char → Option Delta → SyntaxCap) (task : WorkerTask)
    (r1 r2 : Nat) (doc : Document) :
    ((syntax_worker parse task r1 r2).isSome ↔ r1 = task.rev ∧ r2 = task.rev) ∧
    (r1 ≠ task.rev → syntax_worker parse task r1 r2 = none ∧
      adopt_update doc (syntax_worker parse task r1 r2) = doc) ∧
    (r2 ≠ task.rev → syntax_worker parse task r1 r2 = none ∧
      adopt_update doc (syntax_worker parse task r1 r2) = doc) := by
  unfold syntax_worker adopt_update
  by_cases h1 : r1 = task.rev <;> by_cases h2 : r2 = task.rev <;>
    simp [h1, h2]

/-- Witness for C1 at a concrete stale second read. -/
theorem c1_witness :
    (4 : Nat) ≠ task0.rev ∧
    syntax_worker parse0 task0 3 4 = none ∧
    adopt_update docAB (syntax_worker parse0 task0 3 4) = docAB :=
  ⟨by decide, (c1_worker_revision_guard parse0 task0 3 4 docAB).2.2 (by decide)⟩

/-- Claim C7: WordEndForward resolves to the scanner's end-of-word boundary,
stepping back one grapheme in every mode other than Insert; from offset 0 of
"hello world" it lands on 4 in Normal mode and 5 in Insert mode. -/
theorem c7_word_end_forward :
    (∀ (ops : ExtOps) (t : List Char) (syn : Option SyntaxCap) (off : Nat)
        (horiz : Option ColPosition) (count : Nat) (mode : Mode),
      move_offset ops t syn off horiz count .wordEndForward mode =
        some ((if mode = .insert then (end_boundary t off).getD off
          else prev_grapheme_offset t ((end_boundary t off).getD off) 1 0),
          none)) ∧
    move_offset trivOps "hello world".toList none 0 none 1 .wordEndForward
      .normal = some (4, none) ∧
    move_offset trivOps "hello world".toList none 0 none 1 .wordEndForward
      .insert = some (5, none) := by
  refine ⟨fun ops t syn off horiz count mode => ?_, by decide, by decide⟩
  unfold move_offset
  by_cases h : mode = .insert <;> simp [h]

/-- Claim C8: `set_syntax` clears the style cache iff no semantic overlay is
installed, `set_semantic_styles` always clears it, and neither touches the
buffer or its revision. -/
theorem c8_style_source_installation (doc : Document) (s : Option SyntaxCap)
    (st : Option (List StyleSpan)) :
    ((set_syntax_cap doc s).line_styles =
      if doc.semantic_styles.isSome then doc.line_styles else []) ∧
    (set_semantic_styles doc st).line_styles = [] ∧
    (set_syntax_cap doc s).buffer = doc.buffer ∧
    (set_semantic_styles doc st).buffer = doc.buffer ∧
    (set_syntax_cap doc s).buffer.rev = doc.buffer.rev ∧
    (set_semantic_styles doc st).buffer.rev = doc.buffer.rev := by
  unfold set_syntax_cap set_semantic_styles
  cases h : doc.semantic_styles <;> simp [h]

/-- Claim C9: on a style-cache miss the computed line styles come from the
semantic overlay when present, else from the syntax style spans when
present, else are the empty list (the query always succeeds). -/
theorem c9_line_style_precedence (ops : ExtOps) (doc : Document) (line : Nat)
    (h : List.lookup line doc.line_styles = none) :
    (line_style ops doc line).1 =
      match doc.semantic_styles with
      | some st => ops.lineStylesOf doc.buffer.text line st
      | none =>
        match doc.syn.bind (fun s => s.styles) with
        | some st => ops.lineStylesOf doc.buffer.text line st
        | none => [] := by
  unfold line_style
  rw [h]
  cases hs : doc.semantic_styles <;>
    cases hb : doc.syn.bind (fun s => s.styles) <;> simp [hs, hb]

/-- Witness for C9 on a document with no style source and an empty cache. -/
theorem c9_witness :
    List.lookup 0 docAB.line_styles = none ∧
    (line_style trivOps docAB 0).1 = [] :=
  ⟨rfl, c9_line_style_precedence trivOps docAB 0 rfl⟩

/-- Claim C10: re-invoking `do_motion_mode` with the operator already
pending executes it over the zero-width span at the cursor offset and clears
it; invoking it with a different operator clears the pending operator while
leaving the document untouched and not installing the new one; with no
pending operator it is installed and the document untouched. -/
theorem c10_motion_mode_protocol (ops : ExtOps) (doc : Document)
    (cur : Cursor) (mm : MotionMode) :
    (cur.motion_mode = some mm →
      ∃ doc1 cur1 tr,
        do_motion_mode ops doc cur mm =
          (doc1, cur1,
            DocOp.execMotionMode mm (cursor_offset cur) (cursor_offset cur)
              true :: tr) ∧
        cur1.motion_mode = none) ∧
    (∀ m, cur.motion_mode = some m → m ≠ mm →
      do_motion_mode ops doc cur mm = (doc, { cur with motion_mode := none }, [])) ∧
    (cur.motion_mode = none →
      do_motion_mode ops doc cur mm =
        (doc, { cur with motion_mode := some mm }, [])) := by
  refine ⟨fun hsame => ?_, fun m hm hne => ?_, fun hnone => ?_⟩
  · unfold do_motion_mode
    rw [hsame]
    simp only [if_pos rfl]
    exact ⟨_, _, _, rfl, rfl⟩
  · unfold do_motion_mode
    rw [hm]
    simp [hne]
  · unfold do_motion_mode
    rw [hnone]

/-- Witness for C10: a pending delete re-triggered executes over the
zero-width span (1, 1) and is cleared. -/
theorem c10_witness :
    curPend.motion_mode = some .delete ∧
    ∃ doc1 cur1 tr,
      do_motion_mode trivOps docAB curPend .delete =
        (doc1, cur1, DocOp.execMotionMode .delete 1 1 true :: tr) ∧
      cur1.motion_mode = none :=
  ⟨rfl, (c10_motion_mode_protocol trivOps docAB curPend .delete).1 rfl⟩

/-- Counterexample to C4 as stated: with a semantic overlay present the
claim's "else" branch says the syntax lens is left alone, but the code
shifts the lens whenever a syntax result is present — on `docBoth` the lens
changes from [3] to [0, 3] and the shift-lens effect is emitted although the
semantic overlay is installed. -/
theorem c4_counterexample :
    docBoth.semantic_styles.isSome = true ∧
    (apply_deltas lensOps docBoth [(d0, iv0)]).1.syn.map SyntaxCap.lens =
      some (0 :: 3 :: []) ∧
    docBoth.syn.map SyntaxCap.lens = some (3 :: []) ∧
    DocOp.shiftLens ∈ (apply_deltas lensOps docBoth [(d0, iv0)]).2 ∧
    some ((0 : Nat) :: 3 :: []) ≠ some ((3 : Nat) :: []) := by
  refine ⟨rfl, rfl, rfl, ?_, by simp⟩
  decide

theorem apply_deltas_nil (ops : ExtOps) (doc : Document) :
    apply_deltas ops doc [] = (doc, []) := rfl

theorem apply_deltas_cons (ops : ExtOps) (doc : Document) (d : Delta)
    (iv : InvalLines) (rest : List (Delta × InvalLines)) :
    apply_deltas ops doc ((d, iv) :: rest) =
      ((apply_deltas ops (on_update (update_styles ops doc d).1).1 rest).1,
        (update_styles ops doc d).2 ++
          [DocOp.clearLayoutCache, DocOp.triggerReparse] ++
          (apply_deltas ops (on_update (update_styles ops doc d).1).1 rest).2) :=
  rfl

theorem update_styles_trace (ops : ExtOps) (doc : Document) (d : Delta) :
    (update_styles ops doc d).2 =
      (match doc.semantic_styles with
        | some _ => [DocOp.shiftSemantic]
        | none =>
          match doc.syn with
          | some s =>
            match s.styles with
            | some _ => [DocOp.shiftSyntaxStyles]
            | none => []
          | none => []) ++
      (match doc.syn with
        | some _ => [DocOp.shiftLens]
        | none => []) ++
      [DocOp.clearStyleCache] := by
  unfold update_styles
  cases hs : doc.semantic_styles with
  | some v =>
    cases hy : doc.syn with
    | some s => simp [hs, hy]
    | none => simp [hs, hy]
  | none =>
    cases hy : doc.syn with
    | some s => cases hst : s.styles <;> simp [hs, hy, hst]
    | none => simp [hs, hy]

theorem update_styles_line_styles (ops : ExtOps) (doc : Document) (d : Delta) :
    (update_styles ops doc d).1.line_styles = [] := rfl

theorem on_update_state (doc : Document) :
    (on_update doc).1.text_layouts = [] ∧
    (on_update doc).1.line_styles = doc.line_styles := ⟨rfl, rfl⟩

/-- Claim C4 (amended): per (delta, invalidated-range) pair, `apply_deltas`
shape-shifts the semantic overlay if present, else the syntax style spans if
present; shifts the lens whenever a syntax result is present, regardless of
the semantic overlay; then clears the style cache, then the layout cache,
then re-triggers the reparse scheduler.  After any nonempty batch of deltas
both per-line caches are empty, so a previously cached line is recomputed on
its next query. -/
theorem c4_apply_deltas_amended (ops : ExtOps) (doc : Document) :
    (∀ d iv,
      (apply_deltas ops doc [(d, iv)]).2 =
        (match doc.semantic_styles with
          | some _ => [DocOp.shiftSemantic]
          | none =>
            match doc.syn with
            | some s =>
              match s.styles with
              | some _ => [DocOp.shiftSyntaxStyles]
              | none => []
            | none => []) ++
        (match doc.syn with
          | some _ => [DocOp.shiftLens]
          | none => []) ++
        [DocOp.clearStyleCache, DocOp.clearLayoutCache, DocOp.triggerReparse]) ∧
    (∀ ds, ds ≠ [] →
      (apply_deltas ops doc ds).1.line_styles = [] ∧
      (apply_deltas ops doc ds).1.text_layouts = [] ∧
      ∀ line, List.lookup line (apply_deltas ops doc ds).1.line_styles = none) := by
  constructor
  · intro d iv
    rw [apply_deltas_cons, apply_deltas_nil, update_styles_trace]
    simp
  · intro ds
    induction ds generalizing doc with
    | nil => intro h; exact absurd rfl h
    | cons p rest ih =>
      intro _
      obtain ⟨d, iv⟩ := p
      cases rest with
      | nil =>
        rw [apply_deltas_cons, apply_deltas_nil]
        exact ⟨(on_update_state _).2.trans (update_styles_line_styles ops doc d),
          (on_update_state _).1,
          fun line => by
            rw [(on_update_state _).2.trans (update_styles_line_styles ops doc d)]
            rfl⟩
      | cons q rest1 =>
        rw [apply_deltas_cons]
        exact ih ((on_update (update_styles ops doc d).1).1) (by simp)

/-- Witness for C4 (amended): one concrete delta empties both caches. -/
theorem c4_witness :
    ((d0, iv0) :: []) ≠ ([] : List (Delta × InvalLines)) ∧
    (apply_deltas trivOps docBoth ((d0, iv0) :: [])).1.line_styles = [] ∧
    (apply_deltas trivOps docBoth ((d0, iv0) :: [])).1.text_layouts = [] ∧
    ∀ line, List.lookup line
      (apply_deltas trivOps docBoth ((d0, iv0) :: [])).1.line_styles = none :=
  ⟨by simp, (c4_apply_deltas_amended trivOps docBoth).2 _ (by simp)⟩

/-- Counterexample to C5 as stated: Movement::Right computes the line end
with `caret = (mode ≠ Normal)`, so in Visual mode (not only Insert) it lands
one position past the last character of the line: on "ab" from offset 1 it
reaches offset 2, the line's content end. -/
theorem c5_counterexample :
    move_offset trivOps ('a' :: 'b' :: []) none 1 none 1 .right .visual =
      some (2, none) ∧
    line_content_end ('a' :: 'b' :: []) 0 = 2 ∧
    move_offset trivOps ('a' :: 'b' :: []) none 1 none 1 .right .normal =
      some (1, none) ∧
    Mode.visual ≠ Mode.insert := by
  refine ⟨by decide, by decide, by decide, by decide⟩

/-- Claim C5 (amended): Left and Right step `count` graphemes; Left clamps
to the line start in Normal and Visual mode and to offset 0 in Insert mode;
Right clamps to the buffer length in Insert mode and to the line end
otherwise, where the line end includes the position one past the last
character in Visual mode but not in Normal mode — so Right may land one past
the last character in Insert and Visual modes, while in Normal mode, from
any offset at or before the Normal line end, it never does. -/
theorem c5_left_right_amended (ops : ExtOps) (t : List Char)
    (syn : Option SyntaxCap) (off : Nat) (horiz : Option ColPosition)
    (count : Nat) :
    (∀ mode, move_offset ops t syn off horiz count .left mode =
      some (prev_grapheme_offset t off count
        (if mode = .insert then 0
          else offset_of_line t (line_of_offset t off)), none)) ∧
    (∀ mode, move_offset ops t syn off horiz count .right mode =
      some (next_grapheme_offset t off count
        (if mode = .insert then t.length
          else offset_line_end t off (mode ≠ .normal)), none)) ∧
    (off ≤ offset_line_end t off false →
      next_grapheme_offset t off count (offset_line_end t off false) ≤
        offset_line_end t off false) := by
  refine ⟨fun mode => ?_, fun mode => ?_, fun h => ?_⟩
  · unfold move_offset
    by_cases hm : mode = .insert <;> simp [hm]
  · unfold move_offset
    by_cases hm : mode = .insert <;> simp [hm]
  · have hle := offset_line_end_le t off false
    unfold next_grapheme_offset
    dsimp only
    split <;> omega

/-- Witness for C5 (amended): on "ab" from offset 1 in Normal mode the Right
bound is the last character and is not exceeded. -/
theorem c5_witness :
    (1 : Nat) ≤ offset_line_end ('a' :: 'b' :: []) 1 false ∧
    next_grapheme_offset ('a' :: 'b' :: []) 1 1
        (offset_line_end ('a' :: 'b' :: []) 1 false) ≤
      offset_line_end ('a' :: 'b' :: []) 1 false :=
  ⟨by decide,
    (c5_left_right_amended trivOps ('a' :: 'b' :: []) none 1 none 1).2.2
      (by decide)⟩

/-- Claim C6: NextUnmatched/PreviousUnmatched use the syntax matcher when
present, else the textual heuristic scanner; the heuristic scanner's found
cursor position is adjusted back one for NextUnmatched and used as-is for
PreviousUnmatched (the matcher's answer is used unadjusted); when nothing is
found the original offset is returned. -/
theorem c6_unmatched_dispatch (ops : ExtOps) (t : List Char) (off : Nat)
    (c : Char) (horiz : Option ColPosition) (count : Nat) (mode : Mode) :
    (∀ s : SyntaxCap,
      move_offset ops t (some s) off horiz count (.nextUnmatched c) mode =
        some ((s.findTag off false c).getD off, none) ∧
      move_offset ops t (some s) off horiz count (.previousUnmatched c) mode =
        some ((s.findTag off true c).getD off, none)) ∧
    (move_offset ops t none off horiz count (.nextUnmatched c) mode =
      some (((next_unmatched t off c).map fun n => n - 1).getD off, none)) ∧
    (move_offset ops t none off horiz count (.previousUnmatched c) mode =
      some ((previous_unmatched t off c).getD off, none)) ∧
    (next_unmatched t off c = none →
      move_offset ops t none off horiz count (.nextUnmatched c) mode =
        some (off, none)) ∧
    (previous_unmatched t off c = none →
      move_offset ops t none off horiz count (.previousUnmatched c) mode =
        some (off, none)) := by
  refine ⟨fun s => ⟨rfl, rfl⟩, rfl, rfl, fun hn => ?_, fun hp => ?_⟩
  · simp [move_offset, hn]
  · simp [move_offset, hp]

/-- Witness for C6: in "a(b)c" with no matcher, NextUnmatched(')') from
inside the pair lands on the bracket (scanner position 4 adjusted to 3);
from offset 0 the bracket pair is balanced and the offset is unchanged. -/
theorem c6_witness :
    next_unmatched ('a' :: '(' :: 'b' :: ')' :: 'c' :: []) 0 ')' = none ∧
    move_offset trivOps ('a' :: '(' :: 'b' :: ')' :: 'c' :: []) none 0 none 1
        (.nextUnmatched ')') .normal = some (0, none) :=
  ⟨by decide,
    (c6_unmatched_dispatch trivOps ('a' :: '(' :: 'b' :: ')' :: 'c' :: []) 0
      ')' none 1 .normal).2.2.2.1 (by decide)⟩

/-- Well-behavedness contract of the external syntax matcher: every answer
it produces is an offset of the buffer. -/
def SynBounded (len : Nat) (s : SyntaxCap) : Prop :=
  (∀ off b c r, s.findTag off b c = some r → r ≤ len) ∧
  (∀ off r, s.findMatchingPair off = some r → r ≤ len)

/-- Side conditions under which `move_offset` cannot panic: the 1-based line
number is positive and the external offset names an existing grapheme. -/
def MovePre (t : List Char) : Movement → Prop
  | .line (.line n) => 1 ≤ n
  | .offset n => n < t.length
  | _ => True

/-- Counterexample to C2 as stated: `Movement::Line(0)` underflows the usize
subtraction `line - 1` and `Movement::Offset(n)` past the buffer end unwraps
a missing rope boundary, so `move_offset` panics (modelled as `none`)
instead of clamping. -/
theorem c2_counterexample :
    move_offset trivOps ('a' :: 'b' :: []) none 0 none 1 (.line (.line 0))
      .normal = none ∧
    move_offset trivOps ('a' :: 'b' :: []) none 0 none 1 (.offset 2)
      .normal = none := ⟨rfl, rfl⟩

/-- Claim C2 (amended): for every in-range starting offset, count, mode,
horizontal hint and buffer, and any in-bounds syntax matcher, `move_offset`
returns an offset within the buffer's valid range and does not panic,
provided `Movement::Line(n)` has n ≥ 1 (n = 0 underflows; the First/Last
sentinels and n past the line count still clamp to [0, last line]) and
`Movement::Offset(n)` has n inside the buffer (past the end the rope
boundary query unwraps `None`). -/
theorem c2_move_offset_amended (ops : ExtOps) (t : List Char)
    (syn : Option SyntaxCap) (off : Nat) (horiz : Option ColPosition)
    (count : Nat) (mv : Movement) (mode : Mode)
    (hoff : off ≤ t.length)
    (hsyn : ∀ s, syn = some s → SynBounded t.length s)
    (hpre : MovePre t mv) :
    ∃ o hz, move_offset ops t syn off horiz count mv mode = some (o, hz) ∧
      o ≤ t.length := by
  cases mv with
  | left =>
    refine ⟨_, _, rfl, ?_⟩
    apply prev_grapheme_offset_le
    split
    · exact Nat.zero_le _
    · exact offset_of_line_le _ _
  | right => exact ⟨_, _, rfl, next_grapheme_offset_le _ _ _ _⟩
  | up => exact ⟨_, _, rfl, offset_of_line_col_le _ _ _⟩
  | down => exact ⟨_, _, rfl, offset_of_line_col_le _ _ _⟩
  | documentStart => exact ⟨_, _, rfl, Nat.zero_le _⟩
  | documentEnd => exact ⟨_, _, rfl, offset_line_end_le _ _ _⟩
  | firstNonBlank => exact ⟨_, _, rfl, first_non_blank_le _ _⟩
  | startOfLine => exact ⟨_, _, rfl, offset_of_line_le _ _⟩
  | endOfLine => exact ⟨_, _, rfl, offset_line_end_le _ _ _⟩
  | line pos =>
    cases pos with
    | line n =>
      have hn : ¬ n = 0 := by
        simp only [MovePre] at hpre
        omega
      simp only [move_offset, if_neg hn]
      exact ⟨_, _, rfl, offset_of_line_col_le _ _ _⟩
    | first => exact ⟨_, _, rfl, offset_of_line_col_le _ _ _⟩
    | last => exact ⟨_, _, rfl, offset_of_line_col_le _ _ _⟩
  | offset n =>
    have hn : n < t.length := hpre
    have hr : rope_prev_grapheme t (n + 1) = some n := by
      unfold rope_prev_grapheme
      rw [if_neg (by omega)]
      simp
    refine ⟨n, none, ?_, by omega⟩
    simp [move_offset, hr]
  | wordEndForward =>
    refine ⟨_, _, rfl, ?_⟩
    split
    · exact prev_grapheme_offset_le _ _ _ _ (Nat.zero_le _)
    · cases h : end_boundary t off with
      | none => simpa [h] using hoff
      | some e => simpa [h] using end_boundary_le t off h
  | wordForward =>
    refine ⟨_, _, rfl, ?_⟩
    cases h : next_boundary t off with
    | none => simpa [h] using hoff
    | some e => simpa [h] using next_boundary_le t off h
  | wordBackward =>
    refine ⟨_, _, rfl, ?_⟩
    cases h : prev_boundary t off with
    | none => simpa [h] using hoff
    | some e => simpa [h] using prev_boundary_le t off h
  | nextUnmatched c =>
    cases syn with
    | some s =>
      refine ⟨_, _, rfl, ?_⟩
      cases h : s.findTag off false c with
      | none => simpa [h] using hoff
      | some r => simpa [h] using (hsyn s rfl).1 _ _ _ _ h
    | none =>
      refine ⟨_, _, rfl, ?_⟩
      cases h : next_unmatched t off c with
      | none => simpa [h] using hoff
      | some r =>
        have := next_unmatched_le _ _ _ h
        simp [h]
        omega
  | previousUnmatched c =>
    cases syn with
    | some s =>
      refine ⟨_, _, rfl, ?_⟩
      cases h : s.findTag off true c with
      | none => simpa [h] using hoff
      | some r => simpa [h] using (hsyn s rfl).1 _ _ _ _ h
    | none =>
      refine ⟨_, _, rfl, ?_⟩
      cases h : previous_unmatched t off c with
      | none => simpa [h] using hoff
      | some r => simpa [h] using previous_unmatched_le _ _ _ h
  | matchPairs =>
    cases syn with
    | some s =>
      refine ⟨_, _, rfl, ?_⟩
      cases h : s.findMatchingPair off with
      | none => simpa [h] using hoff
      | some r => simpa [h] using (hsyn s rfl).2 _ _ h
    | none =>
      refine ⟨_, _, rfl, ?_⟩
      cases h : match_pairs t off with
      | none => simpa [h] using hoff
      | some r => simpa [h] using match_pairs_le _ _ h

/-- Witness for C2 (amended) on a concrete Left motion. -/
theorem c2_witness :
    (0 : Nat) ≤ ('a' :: 'b' :: []).length ∧
    ∃ o hz,
      move_offset trivOps ('a' :: 'b' :: []) none 0 none 1 .left .normal =
        some (o, hz) ∧ o ≤ ('a' :: 'b' :: []).length :=
  ⟨by decide,
    c2_move_offset_amended trivOps ('a' :: 'b' :: []) none 0 none 1 .left
      .normal (by decide) (fun s h => nomatch h) trivial⟩

/-- The span handed to `execute_motion_mode` by the pending-operator branch
of `move_cursor`: inclusive movements use the one-grapheme Insert-mode
lookahead right of the raw destination; MatchPairs orders the pair by the
direction of travel; every other movement passes (origin, destination)
without reordering. -/
def motion_span (t : List Char) (off newOffset : Nat) : Movement → Nat × Nat :=
  fun mv =>
    let moved := next_grapheme_offset t newOffset 1 t.length
    match mv with
    | .endOfLine | .wordEndForward => (off, moved)
    | .matchPairs =>
      if newOffset > off then (off, moved) else (moved, newOffset)
    | _ => (off, newOffset)

theorem move_offset_right_insert (ops : ExtOps) (t : List Char)
    (syn : Option SyntaxCap) (off : Nat) (horiz : Option ColPosition)
    (count : Nat) :
    move_offset ops t syn off horiz count .right .insert =
      some (next_grapheme_offset t off count t.length, none) := by
  simp [move_offset]

/-- Counterexample to C3 as stated: the code orders start/end only for
MatchPairs; a backward Left motion with a pending delete on "ab" from offset
1 executes the operator over the span (1, 0) with start above end, where the
claim says the pair is ordered so that start ≤ end. -/
theorem c3_counterexample :
    (move_cursor trivOps docAB curPend .left 1 false).map (fun r => r.2.2) =
      some (DocOp.execMotionMode .delete 1 0 false :: []) ∧
    ¬ ((1 : Nat) ≤ 0) := ⟨rfl, by decide⟩

/-- Claim C3 (amended): in Normal mode with a pending operator, `move_cursor`
computes the raw destination, widens EndOfLine/WordEndForward/MatchPairs by
a one-grapheme Insert-mode lookahead Right, orders the MatchPairs pair by
direction of travel, passes every other movement's pair as (origin,
destination) without reordering (start may exceed end for backward motions),
executes the pending operator over that span, and clears the operator. -/
theorem c3_pending_operator_amended (ops : ExtOps) (doc : Document)
    (cur : Cursor) (mv : Movement) (count : Nat) (modify : Bool)
    (off newOffset : Nat) (mm : MotionMode) (hz : Option ColPosition)
    (hm : cur.mode = .normal off)
    (hp : cur.motion_mode = some mm)
    (hmv : move_offset ops doc.buffer.text doc.syn off cur.horiz count mv
      .normal = some (newOffset, hz)) :
    ∃ doc1 cur1 tr,
      move_cursor ops doc cur mv count modify =
        some (doc1, cur1,
          DocOp.execMotionMode mm
            (motion_span doc.buffer.text off newOffset mv).1
            (motion_span doc.buffer.text off newOffset mv).2
            mv.is_vertical :: tr) ∧
      cur1.motion_mode = none := by
  obtain ⟨cmode, chz, cmmode⟩ := cur
  dsimp only at hm hp hmv
  subst hm
  subst hp
  unfold move_cursor
  dsimp only
  rw [hmv, Option.some_bind, move_offset_right_insert, Option.some_bind]
  exact ⟨_, _, _, rfl, rfl⟩

/-- Witness for C3 (amended): a pending yank with EndOfLine on "ab" from
offset 0 executes over the widened span and is cleared. -/
theorem c3_witness :
    curYank.mode = .normal 0 ∧
    curYank.motion_mode = some .yank ∧
    move_offset trivOps docAB.buffer.text docAB.syn 0 curYank.horiz 1
      .endOfLine .normal = some (1, some .lineEnd) ∧
    ∃ doc1 cur1 tr,
      move_cursor trivOps docAB curYank .endOfLine 1 false =
        some (doc1, cur1,
          DocOp.execMotionMode .yank
            (motion_span docAB.buffer.text 0 1 .endOfLine).1
            (motion_span docAB.buffer.text 0 1 .endOfLine).2
            (Movement.endOfLine).is_vertical :: tr) ∧
      cur1.motion_mode = none :=
  ⟨rfl, rfl, by decide,
    c3_pending_operator_amended trivOps docAB curYank .endOfLine 1 false 0 1
      .yank (some .lineEnd) rfl rfl (by decide)⟩

end Claims

end LapceDoc
